import Mathlib

/-!
# Messagely: the user model and the message routes

A shallow embedding of `src/models/user.js` and `src/routes/messages.js`.

The relational store is a pair of tables (lists of rows) and the serial
counter of `messages.id`.  Every SQL statement of the source becomes a list
comprehension over these tables, `result.rows[0]` becomes `List.head?`, and
`current_timestamp` is an explicit argument of the operation that reads it.
`bcrypt` is an external library and enters as a parameter.

`src/routes/messages.js` binds `db` with `require('../db')`.
`src/models/user.js` has no `require` and declares neither `db` nor `bcrypt`,
so its functions look both names up in a `Scope`; `userModule` is the scope of
the file as it stands, in which neither name is bound.
-/

namespace Messagely

/-! ## Data model -/

/-- Timestamps of the store (`current_timestamp`). -/
abbrev Timestamp := Nat

/-- A row of table `users`. -/
structure UserRow where
  username : String
  password : String
  first_name : String
  last_name : String
  phone : String
  join_at : Timestamp
  last_login_at : Timestamp
deriving DecidableEq, Repr

/-- A row of table `messages`. -/
structure MessageRow where
  id : Nat
  from_username : String
  to_username : String
  body : String
  sent_at : Timestamp
  read_at : Option Timestamp
deriving DecidableEq, Repr

/-- The persistent store: both tables and the serial counter that generates
message ids. -/
structure Store where
  users : List UserRow
  messages : List MessageRow
  nextId : Nat
deriving DecidableEq, Repr

/-- Failures raised by `db.query` (they reject the promise, or reach
`next(err)` in a route). -/
inductive DbError where
  | uniqueViolation
  | foreignKeyViolation
deriving DecidableEq, Repr

/-- Modelled from the spec: the constraints of the relational schema, whose
declaration (the SQL file creating the tables) is not part of the sources.
`username` is the unique key of `users`, `id` is the unique system-generated
key of `messages` (below the serial counter), and `from_username` and
`to_username` reference existing users. -/
def Store.Valid (s : Store) : Prop :=
  (s.users.map (·.username)).Nodup ∧
  (s.messages.map (·.id)).Nodup ∧
  (∀ m ∈ s.messages, m.from_username ∈ s.users.map (·.username)) ∧
  (∀ m ∈ s.messages, m.to_username ∈ s.users.map (·.username)) ∧
  (∀ m ∈ s.messages, m.id < s.nextId)

instance (s : Store) : Decidable s.Valid := by
  unfold Store.Valid; infer_instance

/-- The external `bcrypt` library: `hash` (the salt it draws is an explicit
argument, followed by the password and the cost factor) and `compare`. -/
structure Bcrypt where
  hash : String → String → Nat → String
  compare : String → String → Bool

/-- The handle `db` as `src/models/user.js` would use it once bound. The
queries of `User.messagesFrom` and `User.messagesTo` have no `ORDER BY`, so the
store returns their rows in an order of its choosing: `arrange` is the
rearrangement it applies to the joined rows. -/
structure Db where
  arrange : List (MessageRow × UserRow) → List (MessageRow × UserRow)

/-- What the free identifiers `bcrypt` and `db` of `src/models/user.js` resolve
to when a function of the file runs; `none` is an identifier that is not
defined. -/
structure Scope where
  bcrypt : Option Bcrypt
  db : Option Db

/-- The scope of `src/models/user.js` as the file stands: before `class User`
there are only comments, no `require` and no declaration, and nothing else
defines the two names, so neither is bound. -/
def userModule : Scope := { bcrypt := none, db := none }

/-- An exception that rejects the promise of a function of
`src/models/user.js`. -/
inductive JsError where
  /-- `ReferenceError: name is not defined`. -/
  | referenceError (name : String)
  /-- A failure raised by `db.query`. -/
  | query (err : DbError)
deriving DecidableEq, Repr

/-- The `{username, first_name, last_name, phone}` object nested in message
results. -/
structure Profile where
  username : String
  first_name : String
  last_name : String
  phone : String
deriving DecidableEq, Repr

/-- The four public columns of a user row. -/
def UserRow.profile (u : UserRow) : Profile :=
  { username := u.username, first_name := u.first_name,
    last_name := u.last_name, phone := u.phone }

/-! ## `src/models/user.js` -/

/-- Argument object of `User.register`. -/
structure RegisterInput where
  username : String
  password : String
  first_name : String
  last_name : String
  phone : String
deriving DecidableEq, Repr

/-- The columns named by `RETURNING username, password, first_name,
last_name, phone`. -/
structure RegisterResult where
  username : String
  password : String
  first_name : String
  last_name : String
  phone : String
deriving DecidableEq, Repr

/-- Modelled from the spec: `INSERT INTO users`, which the store rejects when
the username already exists (the uniqueness constraint is declared in the
schema, not in the sources). -/
def insertUser (s : Store) (row : UserRow) : Except DbError (List UserRow × Store) :=
  if row.username ∈ s.users.map (·.username) then .error .uniqueViolation
  else .ok ([row], { s with users := s.users ++ [row] })

/-- Embedding of `User.register`: `bcrypt.hash(password, 12)` is evaluated
first, then `db.query` with the `INSERT`, then `result.rows[0]` is returned. -/
def register (scope : Scope) (s : Store) (now : Timestamp) (salt : String)
    (input : RegisterInput) : Except JsError (Option RegisterResult × Store) :=
  match scope.bcrypt with
  | none => .error (.referenceError "bcrypt")
  | some bcrypt =>
    let hashedPassword := bcrypt.hash salt input.password 12
    match scope.db with
    | none => .error (.referenceError "db")
    | some _ =>
      match insertUser s
          { username := input.username, password := hashedPassword,
            first_name := input.first_name, last_name := input.last_name,
            phone := input.phone, join_at := now, last_login_at := now } with
      | .error e => .error (.query e)
      | .ok (inserted, s') =>
        let rows : List RegisterResult := inserted.map fun u =>
          { username := u.username, password := u.password, first_name := u.first_name,
            last_name := u.last_name, phone := u.phone }
        .ok (rows.head?, s')

/-- Embedding of `User.authenticate`: `db.query` with the `SELECT`, then
`bcrypt.compare` against the first row if there is one. -/
def authenticate (scope : Scope) (s : Store) (username password : String) :
    Except JsError Bool :=
  match scope.db with
  | none => .error (.referenceError "db")
  | some _ =>
    let rows := (s.users.filter fun u => u.username = username).map (·.password)
    match rows.head? with
    | some userPassword =>
      match scope.bcrypt with
      | none => .error (.referenceError "bcrypt")
      | some bcrypt => .ok (bcrypt.compare password userPassword)
    | none => .ok false

/-- Entry of the result of `User.messagesFrom`. -/
structure SentEntry where
  id : Nat
  to_user : Profile
  body : String
  sent_at : Timestamp
  read_at : Option Timestamp
deriving DecidableEq, Repr

/-- Entry of the result of `User.messagesTo`. -/
structure ReceivedEntry where
  id : Nat
  from_user : Profile
  body : String
  sent_at : Timestamp
  read_at : Option Timestamp
deriving DecidableEq, Repr

/-- Embedding of `User.messagesFrom`: `db.query` with `messages m JOIN users u
ON m.to_username = u.username WHERE m.from_username = $1`, then the `map` that
nests the recipient columns. -/
def messagesFrom (scope : Scope) (s : Store) (username : String) :
    Except JsError (List SentEntry) :=
  match scope.db with
  | none => .error (.referenceError "db")
  | some db =>
    let rows : List (MessageRow × UserRow) :=
      db.arrange (s.messages.flatMap fun m => s.users.flatMap fun u =>
        if m.to_username = u.username ∧ m.from_username = username then [(m, u)] else [])
    .ok (rows.map fun msg =>
      { id := msg.1.id,
        to_user :=
          { username := msg.2.username, first_name := msg.2.first_name,
            last_name := msg.2.last_name, phone := msg.2.phone },
        body := msg.1.body, sent_at := msg.1.sent_at, read_at := msg.1.read_at })

/-- Embedding of `User.messagesTo`: `db.query` with `messages m JOIN users u ON
m.from_username = u.username WHERE m.to_username = $1`, then the `map` that
nests the sender columns. -/
def messagesTo (scope : Scope) (s : Store) (username : String) :
    Except JsError (List ReceivedEntry) :=
  match scope.db with
  | none => .error (.referenceError "db")
  | some db =>
    let rows : List (MessageRow × UserRow) :=
      db.arrange (s.messages.flatMap fun m => s.users.flatMap fun u =>
        if m.from_username = u.username ∧ m.to_username = username then [(m, u)] else [])
    .ok (rows.map fun msg =>
      { id := msg.1.id,
        from_user :=
          { username := msg.2.username, first_name := msg.2.first_name,
            last_name := msg.2.last_name, phone := msg.2.phone },
        body := msg.1.body, sent_at := msg.1.sent_at, read_at := msg.1.read_at })

/-! ## `src/routes/messages.js` -/

/-- What a route handler does with the response object. -/
inductive Reply (α : Type) where
  /-- The call `res.status(status).json({message: payload})`. -/
  | json (status : Nat) (payload : α)
  /-- The call `res.status(status).json({error: error})`. -/
  | error (status : Nat) (error : String)
  /-- The call `next(err)` of the `catch` block. -/
  | next (err : DbError)
deriving DecidableEq, Repr

/-- Status code of a reply (500 from the generic error handler). -/
def Reply.status {α : Type} : Reply α → Nat
  | .json status _ => status
  | .error status _ => status
  | .next _ => 500

/-- The `message` object answered by `GET /:id`. -/
structure MessageDetail where
  id : Nat
  body : String
  sent_at : Timestamp
  read_at : Option Timestamp
  from_user : Profile
  to_user : Profile
deriving DecidableEq, Repr

/-- The query of `GET /:id`: `messages m JOIN users u1 ON m.from_username =
u1.username JOIN users u2 ON m.to_username = u2.username WHERE m.id = $1`. -/
def detailQuery (s : Store) (id : Nat) : List (MessageRow × UserRow × UserRow) :=
  s.messages.flatMap fun m => s.users.flatMap fun u1 => s.users.flatMap fun u2 =>
    if m.from_username = u1.username ∧ m.to_username = u2.username ∧ m.id = id
    then [(m, u1, u2)] else []

/-- Embedding of the handler `router.get('/:id')`. -/
def getById (s : Store) (id : Nat) (currentUser : String) : Reply MessageDetail :=
  match (detailQuery s id).head? with
  | none => .error 404 "Message not found"
  | some (m, u1, u2) =>
    if currentUser ≠ u1.username ∧ currentUser ≠ u2.username then
      .error 403 "Unauthorized"
    else
      .json 200
        { id := m.id, body := m.body, sent_at := m.sent_at, read_at := m.read_at,
          from_user :=
            { username := u1.username, first_name := u1.first_name,
              last_name := u1.last_name, phone := u1.phone },
          to_user :=
            { username := u2.username, first_name := u2.first_name,
              last_name := u2.last_name, phone := u2.phone } }

/-- The `message` object answered by `POST /`. -/
structure SentMessage where
  id : Nat
  from_username : String
  to_username : String
  body : String
  sent_at : Timestamp
deriving DecidableEq, Repr

/-- JavaScript falsiness of a request field that is either missing or a
string: missing and the empty string are falsy. -/
def falsy : Option String → Bool
  | none => true
  | some v => v == ""

/-- Modelled from the spec: `INSERT INTO messages`, which draws the id from the
serial counter and which the store rejects when a referenced username does
not exist (the foreign keys are declared in the schema, not in the sources). -/
def insertMessage (s : Store) (now : Timestamp) (from_username to_username body : String) :
    Except DbError (List MessageRow × Store) :=
  if from_username ∈ s.users.map (·.username) ∧ to_username ∈ s.users.map (·.username) then
    let row : MessageRow :=
      { id := s.nextId, from_username := from_username, to_username := to_username,
        body := body, sent_at := now, read_at := none }
    .ok ([row], { s with messages := s.messages ++ [row], nextId := s.nextId + 1 })
  else .error .foreignKeyViolation

/-- Embedding of the handler `router.post('/')`. -/
def send (s : Store) (now : Timestamp) (currentUser : String)
    (to_username body : Option String) : Reply (Option SentMessage) × Store :=
  if falsy to_username || falsy body then
    (.error 400 "Missing required fields", s)
  else
    match insertMessage s now currentUser (to_username.getD "") (body.getD "") with
    | .error err => (.next err, s)
    | .ok (inserted, s') =>
      let rows : List SentMessage := inserted.map fun m =>
        { id := m.id, from_username := m.from_username, to_username := m.to_username,
          body := m.body, sent_at := m.sent_at }
      (.json 201 rows.head?, s')

/-- The `message` object answered by `POST /:id/read`. -/
structure ReadReceipt where
  id : Nat
  read_at : Option Timestamp
deriving DecidableEq, Repr

/-- The statement `UPDATE messages SET read_at = current_timestamp WHERE id =
$1 RETURNING id, read_at`: the updated table and the returned rows. -/
def updateReadAt (s : Store) (now : Timestamp) (id : Nat) : List ReadReceipt × Store :=
  let messages := s.messages.map fun m =>
    if m.id = id then { m with read_at := some now } else m
  ((messages.filter fun m => m.id = id).map fun m => { id := m.id, read_at := m.read_at },
   { s with messages := messages })

/-- Embedding of the handler `router.post('/:id/read')`. -/
def markRead (s : Store) (now : Timestamp) (id : Nat) (currentUser : String) :
    Reply (Option ReadReceipt) × Store :=
  let rows := (s.messages.filter fun m => m.id = id).map (·.to_username)
  match rows.head? with
  | none => (.error 404 "Message not found", s)
  | some to_username =>
    if currentUser ≠ to_username then (.error 403 "Unauthorized", s)
    else
      let updateResult := updateReadAt s now id
      (.json 200 updateResult.1.head?, updateResult.2)

/-! ## Sequences of message-service operations -/

/-- A request to the message service. -/
inductive Op where
  | send (now : Timestamp) (currentUser : String) (to_username body : Option String)
  | getById (id : Nat) (currentUser : String)
  | markRead (now : Timestamp) (id : Nat) (currentUser : String)
deriving DecidableEq, Repr

/-- The store after one request. -/
def step (s : Store) : Op → Store
  | .send now currentUser to_username body => (send s now currentUser to_username body).2
  | .getById _ _ => s
  | .markRead now id currentUser => (markRead s now id currentUser).2

/-- The store after a sequence of requests, served one after the other. -/
def run (s : Store) (ops : List Op) : Store :=
  ops.foldl step s

/-! ## Concrete instances used in the examples -/

/-- A stand-in for `bcrypt` whose comparison succeeds exactly on the hashed
password: the digest is the password behind a marker character. -/
def markerBcrypt : Bcrypt where
  hash := fun _ password _ => ⟨'#' :: password.data⟩
  compare := fun password hashed => decide (hashed.data = '#' :: password.data)

/-- A scope in which both names are bound, as they would be had the file
required them: the stand-in for `bcrypt`, and a store that returns rows in
table order. -/
def boundScope : Scope :=
  { bcrypt := some markerBcrypt, db := some { arrange := fun rows => rows } }

/-- The empty store. -/
def emptyStore : Store := { users := [], messages := [], nextId := 1 }

/-- A user row with the given name and password digest. -/
def sampleUser (username password : String) : UserRow :=
  { username := username, password := password, first_name := "F", last_name := "L",
    phone := "1", join_at := 0, last_login_at := 0 }

/-- Alice and Bob, and one unread message from Alice to Bob. -/
def sampleStore : Store :=
  { users := [sampleUser "alice" "#a", sampleUser "bob" "#b"],
    messages :=
      [{ id := 1, from_username := "alice", to_username := "bob", body := "hello",
         sent_at := 3, read_at := none }],
    nextId := 2 }

/-- The sample store with a third user, Carol, whose stored password is the
digest of `pw`. -/
def carolStore : Store :=
  { sampleStore with
    users := sampleStore.users ++
      [{ username := "carol", password := "#pw", first_name := "C", last_name := "L",
         phone := "555", join_at := 7, last_login_at := 7 }] }

/-- Alice and a user whose username is the empty string. -/
def blankNameStore : Store :=
  { users := [sampleUser "alice" "#a", sampleUser "" "#b"], messages := [], nextId := 1 }

/-! ## Auxiliary facts about query results -/

/-- A non-empty result all of whose rows equal `a` has `a` as its first row. -/
theorem head?_eq_some_of_forall {α : Type} {l : List α} {a : α}
    (hne : l ≠ []) (hall : ∀ x ∈ l, x = a) : l.head? = some a := by
  cases l with
  | nil => exact absurd rfl hne
  | cons x xs => simp [hall x (List.mem_cons_self x xs)]

/-- The first row of a result is one of its rows. -/
theorem mem_of_head?_eq_some {α : Type} {l : List α} {a : α}
    (h : l.head? = some a) : a ∈ l := by
  cases l with
  | nil => simp at h
  | cons x xs =>
    simp only [List.head?_cons, Option.some.injEq] at h
    subst h
    exact List.mem_cons_self _ _

/-- A result without rows has no first row. -/
theorem head?_eq_none_of_forall_not_mem {α : Type} {l : List α}
    (h : ∀ x, x ∉ l) : l.head? = none := by
  cases l with
  | nil => rfl
  | cons x xs => exact absurd (List.mem_cons_self x xs) (h x)

/-- Rows of the `GET /:id` query. -/
theorem mem_detailQuery {s : Store} {id : Nat} {r : MessageRow × UserRow × UserRow} :
    r ∈ detailQuery s id ↔
      r.1 ∈ s.messages ∧ r.2.1 ∈ s.users ∧ r.2.2 ∈ s.users ∧
        r.1.from_username = r.2.1.username ∧ r.1.to_username = r.2.2.username ∧
        r.1.id = id := by
  obtain ⟨m, u1, u2⟩ := r
  simp only [detailQuery, List.mem_flatMap]
  constructor
  · rintro ⟨m', hm', a, ha, b, hb, h⟩
    split at h
    · rename_i hc
      simp only [List.mem_singleton, Prod.mk.injEq] at h
      obtain ⟨rfl, rfl, rfl⟩ := h
      exact ⟨hm', ha, hb, hc.1, hc.2.1, hc.2.2⟩
    · simp at h
  · rintro ⟨hm, ha, hb, h1, h2, h3⟩
    refine ⟨m, hm, u1, ha, u2, hb, ?_⟩
    simp [h1, h2, h3]

/-- In a valid store two user rows with the same username are the same row. -/
theorem Store.Valid.user_unique {s : Store} (hv : s.Valid) {u v : UserRow}
    (hu : u ∈ s.users) (hw : v ∈ s.users) (h : u.username = v.username) : u = v :=
  List.inj_on_of_nodup_map hv.1 hu hw h

/-- In a valid store two message rows with the same id are the same row. -/
theorem Store.Valid.message_unique {s : Store} (hv : s.Valid) {m n : MessageRow}
    (hm : m ∈ s.messages) (hn : n ∈ s.messages) (h : m.id = n.id) : m = n :=
  List.inj_on_of_nodup_map hv.2.1 hm hn h

/-- In a valid store the `GET /:id` query of a stored message's id has that
message, joined with its sender and its recipient, as first row. -/
theorem detailQuery_head? {s : Store} (hv : s.Valid) {m : MessageRow} (hm : m ∈ s.messages) :
    ∃ u1 ∈ s.users, ∃ u2 ∈ s.users,
      u1.username = m.from_username ∧ u2.username = m.to_username ∧
        (detailQuery s m.id).head? = some (m, u1, u2) := by
  obtain ⟨u1, hu1, e1⟩ := List.mem_map.mp (hv.2.2.1 m hm)
  obtain ⟨u2, hu2, e2⟩ := List.mem_map.mp (hv.2.2.2.1 m hm)
  refine ⟨u1, hu1, u2, hu2, e1, e2, ?_⟩
  have hin : (m, u1, u2) ∈ detailQuery s m.id :=
    mem_detailQuery.mpr ⟨hm, hu1, hu2, e1.symm, e2.symm, rfl⟩
  apply head?_eq_some_of_forall (List.ne_nil_of_mem hin)
  rintro ⟨m', a, b⟩ hr
  obtain ⟨hm', ha, hb, h1, h2, h3⟩ := mem_detailQuery.mp hr
  simp only at h1 h2 h3
  have hmm : m' = m := hv.message_unique hm' hm h3
  subst hmm
  have haa : a = u1 := hv.user_unique ha hu1 (by rw [← h1, e1])
  have hbb : b = u2 := hv.user_unique hb hu2 (by rw [← h2, e2])
  rw [haa, hbb]

/-- In a valid store the recipient query of `POST /:id/read` for a stored
message's id has that message's recipient as first row. -/
theorem recipientQuery_head? {s : Store} (hv : s.Valid) {m : MessageRow}
    (hm : m ∈ s.messages) :
    (((s.messages.filter fun x => x.id = m.id).map (·.to_username)).head?) =
      some m.to_username := by
  apply head?_eq_some_of_forall
  · apply List.ne_nil_of_mem (a := m.to_username)
    exact List.mem_map.mpr ⟨m, List.mem_filter.mpr ⟨hm, by simp⟩, rfl⟩
  · intro x hx
    obtain ⟨m', hm', rfl⟩ := List.mem_map.mp hx
    obtain ⟨hin, hid⟩ := List.mem_filter.mp hm'
    have : m' = m := hv.message_unique hin hm (by simpa using hid)
    rw [this]

/-- The recipient query of `POST /:id/read` is empty for an id no message has. -/
theorem recipientQuery_none {s : Store} {id : Nat} (h : ∀ m ∈ s.messages, m.id ≠ id) :
    (((s.messages.filter fun x => x.id = id).map (·.to_username)).head?) = none := by
  apply head?_eq_none_of_forall_not_mem
  intro x hx
  obtain ⟨m', hm', _⟩ := List.mem_map.mp hx
  obtain ⟨hin, hid⟩ := List.mem_filter.mp hm'
  exact h m' hin (by simpa using hid)

/-- The rows returned by the `UPDATE` of `POST /:id/read` for a stored id
start with that id and the new timestamp. -/
theorem updateReadAt_head? {s : Store} {now : Timestamp} {m : MessageRow}
    (hm : m ∈ s.messages) :
    (updateReadAt s now m.id).1.head? = some { id := m.id, read_at := some now } := by
  unfold updateReadAt
  apply head?_eq_some_of_forall
  · apply List.ne_nil_of_mem (a := ({ id := m.id, read_at := some now } : ReadReceipt))
    refine List.mem_map.mpr ⟨{ m with read_at := some now }, List.mem_filter.mpr ⟨?_, by simp⟩, rfl⟩
    exact List.mem_map.mpr ⟨m, hm, by simp⟩
  · intro x hx
    obtain ⟨m', hm', rfl⟩ := List.mem_map.mp hx
    obtain ⟨hin, hid⟩ := List.mem_filter.mp hm'
    obtain ⟨m0, _, rfl⟩ := List.mem_map.mp hin
    have hid' : (if m0.id = m.id then { m0 with read_at := some now } else m0).id = m.id := by
      simpa using hid
    by_cases h0 : m0.id = m.id
    · simp [h0]
    · rw [if_neg h0] at hid'
      exact absurd hid' h0

/-- In a valid store the password query of `User.authenticate` for a stored
user's name has that user's stored hash as first row. -/
theorem passwordQuery_head? {s : Store} (hv : s.Valid) {u : UserRow} (hu : u ∈ s.users) :
    (((s.users.filter fun x => x.username = u.username).map (·.password)).head?) =
      some u.password := by
  apply head?_eq_some_of_forall
  · apply List.ne_nil_of_mem (a := u.password)
    exact List.mem_map.mpr ⟨u, List.mem_filter.mpr ⟨hu, by simp⟩, rfl⟩
  · intro x hx
    obtain ⟨v, hv', rfl⟩ := List.mem_map.mp hx
    obtain ⟨hin, hname⟩ := List.mem_filter.mp hv'
    have : v = u := hv.user_unique hin hu (by simpa using hname)
    rw [this]

/-- The password query of `User.authenticate` is empty for a name no user has. -/
theorem passwordQuery_none {s : Store} {username : String}
    (h : ∀ u ∈ s.users, u.username ≠ username) :
    (((s.users.filter fun x => x.username = username).map (·.password)).head?) = none := by
  apply head?_eq_none_of_forall_not_mem
  intro x hx
  obtain ⟨v, hv', _⟩ := List.mem_map.mp hx
  obtain ⟨hin, hname⟩ := List.mem_filter.mp hv'
  exact h v hin (by simpa using hname)

/-- The result of `User.register`, with both names bound, when the username
is not yet taken. -/
theorem register_fresh (scope : Scope) (B : Bcrypt) (D : Db) (hB : scope.bcrypt = some B)
    (hD : scope.db = some D) (s : Store) (now : Timestamp) (salt : String)
    (input : RegisterInput) (hfresh : input.username ∉ s.users.map (·.username)) :
    register scope s now salt input =
      .ok (some { username := input.username, password := B.hash salt input.password 12,
                  first_name := input.first_name, last_name := input.last_name,
                  phone := input.phone },
           { s with users := s.users ++
              [{ username := input.username, password := B.hash salt input.password 12,
                 first_name := input.first_name, last_name := input.last_name,
                 phone := input.phone, join_at := now, last_login_at := now }] }) := by
  simp only [register, hB, hD, insertUser, if_neg hfresh, List.map_cons, List.map_nil,
    List.head?_cons]

/-- The result of `User.register`, with both names bound, when the username
is taken. -/
theorem register_taken (scope : Scope) (B : Bcrypt) (D : Db) (hB : scope.bcrypt = some B)
    (hD : scope.db = some D) (s : Store) (now : Timestamp) (salt : String)
    (input : RegisterInput) (htaken : input.username ∈ s.users.map (·.username)) :
    register scope s now salt input = .error (.query .uniqueViolation) := by
  simp only [register, hB, hD, insertUser, if_pos htaken]

/-! ## How the routes change the store -/

/-- The row that `POST /` inserts. -/
theorem send_ok (s : Store) (now : Timestamp) (currentUser to_username body : String)
    (hfrom : currentUser ∈ s.users.map (·.username))
    (hto : to_username ∈ s.users.map (·.username))
    (hto' : to_username ≠ "") (hbody : body ≠ "") :
    send s now currentUser (some to_username) (some body) =
      (.json 201 (some { id := s.nextId, from_username := currentUser,
                         to_username := to_username, body := body, sent_at := now }),
       { s with
          messages := s.messages ++
            [{ id := s.nextId, from_username := currentUser, to_username := to_username,
               body := body, sent_at := now, read_at := none }],
          nextId := s.nextId + 1 }) := by
  have hf : (falsy (some to_username) || falsy (some body)) = false := by
    simp [falsy, hto', hbody]
  simp only [send, hf, insertMessage, Option.getD_some, hfrom, hto, and_self, if_true,
    List.map_cons, List.map_nil, List.head?_cons]
  rfl

/-- After `POST /` the store is either as before, or it has one more message,
unread, between two existing users, with the next serial id. -/
theorem send_store (s : Store) (now : Timestamp) (currentUser : String)
    (to_username body : Option String) :
    (send s now currentUser to_username body).2 = s ∨
      ∃ t b, currentUser ∈ s.users.map (·.username) ∧ t ∈ s.users.map (·.username) ∧
        (send s now currentUser to_username body).2 =
          { s with
            messages := s.messages ++
              [{ id := s.nextId, from_username := currentUser, to_username := t,
                 body := b, sent_at := now, read_at := none }],
            nextId := s.nextId + 1 } := by
  by_cases hf : (falsy to_username || falsy body) = true
  · exact Or.inl (by simp only [send, hf, if_true])
  · by_cases hfk : currentUser ∈ s.users.map (·.username) ∧
        to_username.getD "" ∈ s.users.map (·.username)
    · refine Or.inr ⟨to_username.getD "", body.getD "", hfk.1, hfk.2, ?_⟩
      simp only [send, hf, insertMessage, if_pos hfk]
      rfl
    · refine Or.inl ?_
      simp only [send, hf, insertMessage, if_neg hfk]
      rfl

/-- Inserting a message between existing users with the next serial id keeps
the store valid. -/
theorem Store.Valid.insert {s : Store} (hv : s.Valid) (f t b : String) (now : Timestamp)
    (hf : f ∈ s.users.map (·.username)) (ht : t ∈ s.users.map (·.username)) :
    Store.Valid
      { s with
        messages := s.messages ++
          [{ id := s.nextId, from_username := f, to_username := t, body := b,
             sent_at := now, read_at := none }],
        nextId := s.nextId + 1 } := by
  obtain ⟨h1, h2, h3, h4, h5⟩ := hv
  refine ⟨h1, ?_, ?_, ?_, ?_⟩
  · simp only [List.map_append, List.map_cons, List.map_nil]
    rw [List.nodup_append]
    refine ⟨h2, List.nodup_singleton _, ?_⟩
    intro a ha hb
    obtain ⟨m, hm, rfl⟩ := List.mem_map.mp ha
    have hlt := h5 m hm
    simp only [List.mem_singleton] at hb
    omega
  · intro m hm
    rcases List.mem_append.mp hm with h | h
    · exact h3 m h
    · simp only [List.mem_singleton] at h
      subst h
      exact hf
  · intro m hm
    rcases List.mem_append.mp hm with h | h
    · exact h4 m h
    · simp only [List.mem_singleton] at h
      subst h
      exact ht
  · intro m hm
    rcases List.mem_append.mp hm with h | h
    · exact Nat.lt_succ_of_lt (h5 m h)
    · simp only [List.mem_singleton] at h
      subst h
      exact Nat.lt_succ_self _

/-- The `UPDATE` of `POST /:id/read` keeps the store valid. -/
theorem Store.Valid.update {s : Store} (hv : s.Valid) (now : Timestamp) (id : Nat) :
    (updateReadAt s now id).2.Valid := by
  obtain ⟨h1, h2, h3, h4, h5⟩ := hv
  have hids : ((updateReadAt s now id).2.messages.map (·.id)) = s.messages.map (·.id) := by
    simp only [updateReadAt, List.map_map]
    apply List.map_congr_left
    intro m _
    by_cases h : m.id = id <;> simp [h]
  have hmem : ∀ m' ∈ (updateReadAt s now id).2.messages, ∃ m ∈ s.messages,
      m'.id = m.id ∧ m'.from_username = m.from_username ∧
        m'.to_username = m.to_username := by
    intro m' hm'
    obtain ⟨m, hm, rfl⟩ := List.mem_map.mp hm'
    refine ⟨m, hm, ?_⟩
    by_cases h : m.id = id <;> simp [h]
  refine ⟨h1, by rw [hids]; exact h2, ?_, ?_, ?_⟩
  · intro m' hm'
    obtain ⟨m, hm, _, e, _⟩ := hmem m' hm'
    rw [e]
    exact h3 m hm
  · intro m' hm'
    obtain ⟨m, hm, _, _, e⟩ := hmem m' hm'
    rw [e]
    exact h4 m hm
  · intro m' hm'
    obtain ⟨m, hm, e, _, _⟩ := hmem m' hm'
    rw [e]
    exact h5 m hm

/-- After `POST /:id/read` on a valid store, the store is either as before, or
the caller is the recipient of every message with that id and the store is
the one the `UPDATE` leaves. -/
theorem markRead_store {s : Store} (hv : s.Valid) (now : Timestamp) (id : Nat)
    (currentUser : String) :
    (markRead s now id currentUser).2 = s ∨
      ((∀ m ∈ s.messages, m.id = id → currentUser = m.to_username) ∧
        (markRead s now id currentUser).2 = (updateReadAt s now id).2) := by
  by_cases hex : ∃ m ∈ s.messages, m.id = id
  · obtain ⟨m, hm, hid⟩ := hex
    subst hid
    by_cases hcu : currentUser = m.to_username
    · refine Or.inr ⟨fun n hn hid => ?_, ?_⟩
      · rw [hv.message_unique hn hm hid]
        exact hcu
      · simp [markRead, recipientQuery_head? hv hm, hcu]
    · exact Or.inl (by simp [markRead, recipientQuery_head? hv hm, hcu])
  · have hnone : ∀ m ∈ s.messages, m.id ≠ id := fun m hm hid => hex ⟨m, hm, hid⟩
    exact Or.inl (by simp [markRead, recipientQuery_none hnone])

/-- Every request keeps the store valid. -/
theorem Store.Valid.step {s : Store} (hv : s.Valid) (op : Op) : (Messagely.step s op).Valid := by
  cases op with
  | send now currentUser to_username body =>
    rcases send_store s now currentUser to_username body with h | ⟨t, b, hf, ht, h⟩
    · simp only [Messagely.step, h]
      exact hv
    · simp only [Messagely.step, h]
      exact hv.insert _ _ _ _ hf ht
  | getById id currentUser => exact hv
  | markRead now id currentUser =>
    rcases markRead_store hv now id currentUser with h | ⟨_, h⟩
    · simp only [Messagely.step, h]
      exact hv
    · simp only [Messagely.step, h]
      exact hv.update now id

/-- What one request does to a stored message: its id, parties, body and
`sent_at` stay, and its `read_at` stays too unless the request is a mark-read
of that id by its recipient, which sets `read_at` to the time of the request. -/
theorem step_message {s : Store} (hv : s.Valid) (op : Op) {m : MessageRow}
    (hm : m ∈ s.messages) :
    ∃ m' ∈ (step s op).messages,
      m'.id = m.id ∧ m'.from_username = m.from_username ∧
      m'.to_username = m.to_username ∧ m'.body = m.body ∧ m'.sent_at = m.sent_at ∧
      (m'.read_at = m.read_at ∨
        ∃ now, op = .markRead now m.id m.to_username ∧ m'.read_at = some now) := by
  have hsame : m ∈ s.messages → ∃ m' ∈ s.messages,
      m'.id = m.id ∧ m'.from_username = m.from_username ∧
      m'.to_username = m.to_username ∧ m'.body = m.body ∧ m'.sent_at = m.sent_at ∧
      (m'.read_at = m.read_at ∨
        ∃ now, op = .markRead now m.id m.to_username ∧ m'.read_at = some now) :=
    fun h => ⟨m, h, rfl, rfl, rfl, rfl, rfl, Or.inl rfl⟩
  cases op with
  | send now currentUser to_username body =>
    rcases send_store s now currentUser to_username body with h | ⟨t, b, _, _, h⟩
    · simp only [step, h]
      exact ⟨m, hm, rfl, rfl, rfl, rfl, rfl, Or.inl rfl⟩
    · simp only [step, h]
      exact ⟨m, List.mem_append_left _ hm, rfl, rfl, rfl, rfl, rfl, Or.inl rfl⟩
  | getById id currentUser => exact ⟨m, hm, rfl, rfl, rfl, rfl, rfl, Or.inl rfl⟩
  | markRead now id currentUser =>
    rcases markRead_store hv now id currentUser with h | ⟨hrec, h⟩
    · simp only [step, h]
      exact ⟨m, hm, rfl, rfl, rfl, rfl, rfl, Or.inl rfl⟩
    · simp only [step, h]
      by_cases hid : m.id = id
      · refine ⟨{ m with read_at := some now }, ?_, rfl, rfl, rfl, rfl, rfl, Or.inr ⟨now, ?_, rfl⟩⟩
        · exact List.mem_map.mpr ⟨m, hm, by simp [hid]⟩
        · rw [hrec m hm hid, hid]
      · refine ⟨m, ?_, rfl, rfl, rfl, rfl, rfl, Or.inl rfl⟩
        exact List.mem_map.mpr ⟨m, hm, by simp [hid]⟩

/-! ## Joins with the users table -/

/-- Joining one message with a users table whose usernames are distinct, on a
username that user `u` of the table has: the only row is the one with `u`,
present when the filter `P` holds. -/
theorem join_user {users : List UserRow} (hnd : (users.map (·.username)).Nodup)
    {u : UserRow} (hu : u ∈ users) (m : MessageRow) (k : String) (hk : k = u.username)
    (P : Prop) [Decidable P] :
    (users.flatMap fun x => if k = x.username ∧ P then [(m, x)] else []) =
      if P then [(m, u)] else [] := by
  have hrows : ∀ r ∈ (users.flatMap fun x => if k = x.username ∧ P then [(m, x)] else []),
      r = (m, u) := by
    intro r hr
    obtain ⟨x, hx, hin⟩ := List.mem_flatMap.mp hr
    split at hin
    · rename_i hc
      simp only [List.mem_singleton] at hin
      have hxu : x = u := List.inj_on_of_nodup_map hnd hx hu (by rw [← hc.1, hk])
      rw [hin, hxu]
    · simp at hin
  by_cases hP : P
  · rw [if_pos hP]
    have hin : (m, u) ∈
        (users.flatMap fun x => if k = x.username ∧ P then [(m, x)] else []) :=
      List.mem_flatMap.mpr ⟨u, hu, by simp [hk, hP]⟩
    have hlen : (users.flatMap fun x => if k = x.username ∧ P then [(m, x)] else []).length
        = ((users.filter fun x => decide (k = x.username)).map fun x => (m, x)).length := by
      clear hrows hin hu hnd
      induction users with
      | nil => rfl
      | cons x xs ih =>
        simp only [List.flatMap_cons, List.length_append, ih, List.filter_cons,
          List.length_map]
        by_cases hx : k = x.username <;> simp [hx, hP, Nat.add_comm]
    have hfl : (users.filter fun x => decide (k = x.username)) = [u] := by
      have hnd' : (users.filter fun x => decide (k = x.username)).Nodup :=
        (List.Nodup.of_map _ hnd).filter _
      have hall : ∀ x ∈ (users.filter fun x => decide (k = x.username)), x = u := by
        intro x hx
        obtain ⟨hx1, hx2⟩ := List.mem_filter.mp hx
        exact List.inj_on_of_nodup_map hnd hx1 hu (by rw [← of_decide_eq_true hx2, hk])
      have hmem : u ∈ (users.filter fun x => decide (k = x.username)) :=
        List.mem_filter.mpr ⟨hu, by simp [hk]⟩
      generalize (users.filter fun x => decide (k = x.username)) = l at hnd' hall hmem
      match l, hnd', hall, hmem with
      | [a], _, hall, _ => rw [hall a (List.mem_singleton_self a)]
      | a :: b :: l, hnd', hall, _ =>
        have hab : a = b := by
          rw [hall a (List.mem_cons_self _ _),
            hall b (List.mem_cons_of_mem _ (List.mem_cons_self _ _))]
        rw [List.nodup_cons] at hnd'
        exact absurd (hab ▸ List.mem_cons_self _ _) hnd'.1
    rw [hfl] at hlen
    generalize (users.flatMap fun x => if k = x.username ∧ P then [(m, x)] else []) = l
      at hrows hin hlen
    match l, hrows, hlen with
    | [r], hrows, _ => rw [hrows r (List.mem_singleton_self r)]
  · rw [if_neg hP]
    apply List.eq_nil_iff_forall_not_mem.mpr
    intro r hr
    obtain ⟨x, _, hin⟩ := List.mem_flatMap.mp hr
    simp [hP] at hin

/-- Joining a list of messages with a users table whose usernames are
distinct, on a key every message finds in the table: the rows are, in order,
the messages that pass the filter, each paired with the user of that key. -/
theorem forall₂_join {users : List UserRow} (hnd : (users.map (·.username)).Nodup)
    (key : MessageRow → String) (P : MessageRow → Prop) [DecidablePred P]
    (l : List MessageRow) (hfk : ∀ m ∈ l, key m ∈ users.map (·.username)) :
    List.Forall₂
      (fun (m : MessageRow) (r : MessageRow × UserRow) =>
        r.1 = m ∧ r.2 ∈ users ∧ r.2.username = key m)
      (l.filter fun m => decide (P m))
      (l.flatMap fun m => users.flatMap fun x =>
        if key m = x.username ∧ P m then [(m, x)] else []) := by
  induction l with
  | nil => exact List.Forall₂.nil
  | cons m l ih =>
    obtain ⟨u, hu, hk⟩ := List.mem_map.mp (hfk m (List.mem_cons_self _ _))
    have ih' := ih fun n hn => hfk n (List.mem_cons_of_mem _ hn)
    rw [List.flatMap_cons, join_user hnd hu m (key m) hk.symm (P m), List.filter_cons]
    by_cases hP : P m
    · simp only [hP, decide_True, if_true, List.singleton_append]
      exact List.Forall₂.cons ⟨rfl, hu, hk⟩ ih'
    · simp only [hP, decide_False, if_false, List.nil_append]
      exact ih'

/-- Registering a user keeps the store valid. -/
theorem Store.Valid.register {s : Store} (hv : s.Valid) (scope : Scope) (now : Timestamp)
    (salt : String) (input : RegisterInput) (r : Option RegisterResult) (s' : Store)
    (h : Messagely.register scope s now salt input = .ok (r, s')) : s'.Valid := by
  cases hB : scope.bcrypt with
  | none => simp [Messagely.register, hB] at h
  | some B =>
    cases hD : scope.db with
    | none => simp [Messagely.register, hB, hD] at h
    | some D =>
      by_cases hfresh : input.username ∈ s.users.map (·.username)
      · rw [register_taken scope B D hB hD s now salt input hfresh] at h
        cases h
      · rw [register_fresh scope B D hB hD s now salt input hfresh] at h
        simp only [Except.ok.injEq, Prod.mk.injEq] at h
        obtain ⟨_, hs⟩ := h
        subst hs
        obtain ⟨h1, h2, h3, h4, h5⟩ := hv
        refine ⟨?_, h2, ?_, ?_, h5⟩
        · simp only [List.map_append, List.map_cons, List.map_nil]
          rw [List.nodup_append]
          refine ⟨h1, List.nodup_singleton _, ?_⟩
          intro a ha hb
          simp only [List.mem_singleton] at hb
          subst hb
          exact hfresh ha
        · intro m hm
          simp only [List.map_append]
          exact List.mem_append_left _ (h3 m hm)
        · intro m hm
          simp only [List.map_append]
          exact List.mem_append_left _ (h4 m hm)

/-- Every sequence of requests keeps the store valid. -/
theorem Store.Valid.run {s : Store} (hv : s.Valid) (ops : List Op) :
    (Messagely.run s ops).Valid := by
  induction ops generalizing s with
  | nil => exact hv
  | cons op ops ih => exact ih (hv.step op)

/-- After `POST /:id/read` of a stored message's id by its recipient the store
is the one the `UPDATE` leaves, whatever `read_at` was before. -/
theorem markRead_recipient {s : Store} (hv : s.Valid) (now : Timestamp) {m : MessageRow}
    (hm : m ∈ s.messages) :
    (markRead s now m.id m.to_username).2 = (updateReadAt s now m.id).2 := by
  simp only [markRead, recipientQuery_head? hv hm, ne_eq, not_true_eq_false, if_false]

/-- What a sequence of requests does to a stored message. -/
theorem run_message {s : Store} (hv : s.Valid) (ops : List Op) {m : MessageRow}
    (hm : m ∈ s.messages) :
    ∃ m' ∈ (run s ops).messages,
      m'.id = m.id ∧ m'.from_username = m.from_username ∧
      m'.to_username = m.to_username ∧ m'.body = m.body ∧ m'.sent_at = m.sent_at ∧
      (m.read_at ≠ none → m'.read_at ≠ none) ∧
      (m'.read_at ≠ m.read_at →
        ∃ now, Op.markRead now m.id m.to_username ∈ ops ∧ m'.read_at = some now) := by
  induction ops generalizing s m with
  | nil => exact ⟨m, hm, rfl, rfl, rfl, rfl, rfl, fun h => h, fun h => absurd rfl h⟩
  | cons op ops ih =>
    obtain ⟨m1, hm1, a1, a2, a3, a4, a5, hr1⟩ := step_message hv op hm
    obtain ⟨m', hm', b1, b2, b3, b4, b5, hsome, hchange⟩ := ih (hv.step op) hm1
    refine ⟨m', hm', b1.trans a1, b2.trans a2, b3.trans a3, b4.trans a4, b5.trans a5, ?_, ?_⟩
    · intro hne
      apply hsome
      rcases hr1 with h | ⟨now, _, h⟩
      · rw [h]
        exact hne
      · rw [h]
        exact Option.some_ne_none now
    · intro hne
      by_cases hlater : m'.read_at = m1.read_at
      · rcases hr1 with h | ⟨now, hop, h⟩
        · exact absurd (hlater.trans h) hne
        · exact ⟨now, by rw [hop]; exact List.mem_cons_self _ _, hlater.trans h⟩
      · obtain ⟨now, hin, h⟩ := hchange hlater
        rw [a1, a3] at hin
        exact ⟨now, List.mem_cons_of_mem _ hin, h⟩


/-! ## The message routes: status codes and authorization -/

/-- C1: in a valid store `GET /:id` answers 404 when no message has the id,
403 when the message exists and the requester is neither its sender nor its
recipient, and 200 with the message (its columns and both parties' profiles)
when the requester is its sender or its recipient. -/
theorem getById_contract (s : Store) (id : Nat) (currentUser : String) (hv : s.Valid) :
    ((∀ m ∈ s.messages, m.id ≠ id) →
        getById s id currentUser = .error 404 "Message not found") ∧
    (∀ m ∈ s.messages, m.id = id →
      (currentUser ≠ m.from_username → currentUser ≠ m.to_username →
        getById s id currentUser = .error 403 "Unauthorized") ∧
      (currentUser = m.from_username ∨ currentUser = m.to_username →
        ∃ u1 ∈ s.users, ∃ u2 ∈ s.users,
          u1.username = m.from_username ∧ u2.username = m.to_username ∧
          getById s id currentUser =
            .json 200
              { id := m.id, body := m.body, sent_at := m.sent_at, read_at := m.read_at,
                from_user := u1.profile, to_user := u2.profile })) := by
  refine ⟨fun hnone => ?_, fun m hm hid => ?_⟩
  · have h0 : (detailQuery s id).head? = none := by
      apply head?_eq_none_of_forall_not_mem
      intro r hr
      obtain ⟨hm, _, _, _, _, h3⟩ := mem_detailQuery.mp hr
      exact hnone r.1 hm h3
    simp [getById, h0]
  · subst hid
    obtain ⟨u1, hu1, u2, hu2, e1, e2, hq⟩ := detailQuery_head? hv hm
    refine ⟨fun hf ht => ?_, fun hor => ⟨u1, hu1, u2, hu2, e1, e2, ?_⟩⟩
    · simp [getById, hq, e1, e2, hf, ht]
    · have hcond : ¬ (currentUser ≠ u1.username ∧ currentUser ≠ u2.username) := by
        rw [e1, e2]
        rcases hor with h | h
        · exact fun hc => hc.1 h
        · exact fun hc => hc.2 h
      simp only [getById, hq, if_neg hcond, UserRow.profile]

/-- C1, at a concrete store: Alice, the sender of message 1, receives it. -/
theorem getById_contract_witness :
    sampleStore.Valid ∧
      ∃ u1 ∈ sampleStore.users, ∃ u2 ∈ sampleStore.users,
        u1.username = "alice" ∧ u2.username = "bob" ∧
        getById sampleStore 1 "alice" =
          .json 200
            { id := 1, body := "hello", sent_at := 3, read_at := none,
              from_user := u1.profile, to_user := u2.profile } :=
  ⟨by decide,
    ((getById_contract sampleStore 1 "alice" (by decide)).2
      { id := 1, from_username := "alice", to_username := "bob", body := "hello",
        sent_at := 3, read_at := none } (by decide) rfl).2 (Or.inl rfl)⟩

/-- C2: in a valid store `POST /:id/read` answers 404 on an absent id and 403
to anyone but the recipient of the message (its sender included), leaving the
store unchanged in both cases; it answers 200 with the id and the new
`read_at` to the recipient, and a 200 answer is given only to the recipient
of an existing message. -/
theorem markRead_contract (s : Store) (now : Timestamp) (id : Nat) (currentUser : String)
    (hv : s.Valid) :
    ((∀ m ∈ s.messages, m.id ≠ id) →
        markRead s now id currentUser = (.error 404 "Message not found", s)) ∧
    (∀ m ∈ s.messages, m.id = id → currentUser ≠ m.to_username →
        markRead s now id currentUser = (.error 403 "Unauthorized", s)) ∧
    (∀ m ∈ s.messages, m.id = id → currentUser = m.to_username →
        (markRead s now id currentUser).1 =
          .json 200 (some { id := id, read_at := some now })) ∧
    ((markRead s now id currentUser).1.status = 200 →
        ∃ m ∈ s.messages, m.id = id ∧ currentUser = m.to_username) := by
  refine ⟨fun hnone => ?_, fun m hm hid hne => ?_, fun m hm hid heq => ?_, fun hok => ?_⟩
  · simp [markRead, recipientQuery_none hnone]
  · subst hid
    simp [markRead, recipientQuery_head? hv hm, hne]
  · subst hid
    simp [markRead, recipientQuery_head? hv hm, heq, updateReadAt_head? hm]
  · by_cases hex : ∃ m ∈ s.messages, m.id = id
    · obtain ⟨m, hm, hid⟩ := hex
      subst hid
      by_cases hcu : currentUser = m.to_username
      · exact ⟨m, hm, rfl, hcu⟩
      · simp [markRead, recipientQuery_head? hv hm, hcu, Reply.status] at hok
    · have hnone : ∀ m ∈ s.messages, m.id ≠ id := fun m hm hid => hex ⟨m, hm, hid⟩
      simp [markRead, recipientQuery_none hnone, Reply.status] at hok

/-- C2, at a concrete store: Alice, the sender of message 1, may not mark it
read, and the store stays as it was. -/
theorem markRead_contract_witness :
    sampleStore.Valid ∧
      markRead sampleStore 9 1 "alice" = (.error 403 "Unauthorized", sampleStore) :=
  ⟨by decide,
    (markRead_contract sampleStore 9 1 "alice" (by decide)).2.1
      { id := 1, from_username := "alice", to_username := "bob", body := "hello",
        sent_at := 3, read_at := none } (by decide) rfl (by decide)⟩

/-- C3: `POST /` with a missing or empty `to_username`, or a missing or empty
`body`, answers 400 and leaves the store (so the set of messages) as it was. -/
theorem send_validation (s : Store) (now : Timestamp) (currentUser : String)
    (to_username body : Option String)
    (h : to_username = none ∨ to_username = some "" ∨ body = none ∨ body = some "") :
    send s now currentUser to_username body = (.error 400 "Missing required fields", s) ∧
      (send s now currentUser to_username body).1.status = 400 ∧
      (send s now currentUser to_username body).2.messages = s.messages := by
  have hf : (falsy to_username || falsy body) = true := by
    rcases h with h | h | h | h <;> subst h <;> simp [falsy]
  have hs : send s now currentUser to_username body =
      (.error 400 "Missing required fields", s) := by
    simp [send, hf]
  rw [hs]
  exact ⟨rfl, rfl, rfl⟩

/-- C3, at a concrete store: Alice sending Bob an empty body. -/
theorem send_validation_witness :
    send sampleStore 9 "alice" (some "bob") (some "") =
        (.error 400 "Missing required fields", sampleStore) ∧
      (send sampleStore 9 "alice" (some "bob") (some "")).1.status = 400 ∧
      (send sampleStore 9 "alice" (some "bob") (some "")).2.messages = sampleStore.messages :=
  send_validation sampleStore 9 "alice" (some "bob") (some "") (Or.inr (Or.inr (Or.inr rfl)))

/-! ## The user model with both names bound -/

/-- With both names bound and a comparison that succeeds exactly on the hashed
password, registering a username not yet in the store succeeds, and
`User.authenticate` then answers true for the registered password and false
for every other. -/
theorem authenticate_after_register (scope : Scope) (B : Bcrypt) (D : Db)
    (hsB : scope.bcrypt = some B) (hsD : scope.db = some D)
    (s : Store) (now : Timestamp) (salt : String) (input : RegisterInput)
    (hB : ∀ (salt p q : String), B.compare q (B.hash salt p 12) = decide (q = p))
    (hfresh : input.username ∉ s.users.map (·.username)) :
    ∃ r s', register scope s now salt input = .ok (r, s') ∧
      authenticate scope s' input.username input.password = .ok true ∧
      ∀ q, q ≠ input.password → authenticate scope s' input.username q = .ok false := by
  refine ⟨_, _, register_fresh scope B D hsB hsD s now salt input hfresh, ?_, ?_⟩
  all_goals
    have hnil : (s.users.filter fun u => u.username = input.username) = [] := by
      rw [List.filter_eq_nil_iff]
      intro u hu hname
      exact hfresh (List.mem_map.mpr ⟨u, hu, by simpa using hname⟩)
  · simp [authenticate, hsB, hsD, List.filter_append, hnil, hB]
  · intro q hq
    simp [authenticate, hsB, hsD, List.filter_append, hnil, hB, hq]

/-- With both names bound, in a valid store `User.authenticate` answers true
exactly when a user with that username exists and `bcrypt.compare` accepts the
password against that user's stored hash, and false for a username no user
has. -/
theorem authenticate_of_bound (scope : Scope) (B : Bcrypt) (D : Db)
    (hsB : scope.bcrypt = some B) (hsD : scope.db = some D)
    (s : Store) (username password : String) (hv : s.Valid) :
    (authenticate scope s username password = .ok true ↔
        ∃ u ∈ s.users, u.username = username ∧ B.compare password u.password = true) ∧
      ((∀ u ∈ s.users, u.username ≠ username) →
        authenticate scope s username password = .ok false) := by
  have hnone : (∀ u ∈ s.users, u.username ≠ username) →
      authenticate scope s username password = .ok false := fun h => by
    simp [authenticate, hsD, passwordQuery_none h]
  have hsome : ∀ u ∈ s.users, u.username = username →
      authenticate scope s username password = .ok (B.compare password u.password) := by
    intro u hu hname
    subst hname
    simp [authenticate, hsB, hsD, passwordQuery_head? hv hu]
  refine ⟨⟨fun h => ?_, fun h => ?_⟩, hnone⟩
  · by_cases hex : ∃ u ∈ s.users, u.username = username
    · obtain ⟨u, hu, hname⟩ := hex
      rw [hsome u hu hname] at h
      exact ⟨u, hu, hname, by simpa using h⟩
    · have := hnone fun u hu hname => hex ⟨u, hu, hname⟩
      rw [this] at h
      simp at h
  · obtain ⟨u, hu, hname, hc⟩ := h
    rw [hsome u hu hname, hc]

/-- With `db` bound to a store that only rearranges rows, in a valid store the
result of `User.messagesFrom` is a rearrangement of one entry per message
whose `from_username` is the given name, each with the message's columns and
the profile of the user it is addressed to; likewise `User.messagesTo`, with
the profile of the sender. -/
theorem messages_of_bound (scope : Scope) (D : Db) (hsD : scope.db = some D)
    (harr : ∀ rows, (D.arrange rows).Perm rows)
    (s : Store) (username : String) (hv : s.Valid) :
    (∃ l, messagesFrom scope s username = .ok l ∧ ∃ l', l.Perm l' ∧
      List.Forall₂
        (fun (m : MessageRow) (e : SentEntry) =>
          e.id = m.id ∧ e.body = m.body ∧ e.sent_at = m.sent_at ∧ e.read_at = m.read_at ∧
            ∃ u ∈ s.users, u.username = m.to_username ∧ e.to_user = u.profile)
        (s.messages.filter fun m => decide (m.from_username = username)) l') ∧
    (∃ l, messagesTo scope s username = .ok l ∧ ∃ l', l.Perm l' ∧
      List.Forall₂
        (fun (m : MessageRow) (e : ReceivedEntry) =>
          e.id = m.id ∧ e.body = m.body ∧ e.sent_at = m.sent_at ∧ e.read_at = m.read_at ∧
            ∃ u ∈ s.users, u.username = m.from_username ∧ e.from_user = u.profile)
        (s.messages.filter fun m => decide (m.to_username = username)) l') := by
  constructor
  · have h := forall₂_join hv.1 (fun m => m.to_username)
      (fun m => m.from_username = username) s.messages hv.2.2.2.1
    refine ⟨_, by simp only [messagesFrom, hsD]; rfl, _, (harr _).map _, ?_⟩
    rw [List.forall₂_map_right_iff]
    refine h.imp ?_
    rintro m ⟨m', u⟩ ⟨h1, h2, h3⟩
    simp only at h1 h2 h3
    subst h1
    exact ⟨rfl, rfl, rfl, rfl, u, h2, h3, rfl⟩
  · have h := forall₂_join hv.1 (fun m => m.from_username)
      (fun m => m.to_username = username) s.messages hv.2.2.1
    refine ⟨_, by simp only [messagesTo, hsD]; rfl, _, (harr _).map _, ?_⟩
    rw [List.forall₂_map_right_iff]
    refine h.imp ?_
    rintro m ⟨m', u⟩ ⟨h1, h2, h3⟩
    simp only at h1 h2 h3
    subst h1
    exact ⟨rfl, rfl, rfl, rfl, u, h2, h3, rfl⟩

/-! ## The user model as the file stands -/

/-- C4: as `src/models/user.js` stands `bcrypt` is not defined, so registering
Alice raises a ReferenceError at `bcrypt.hash` and stores nothing, where the
specification (and the doc comment of the function) has the call return the
stored profile; the same holds for every store and input, so no call succeeds. -/
theorem register_unbound_bcrypt :
    register userModule emptyStore 7 "salt"
        { username := "alice", password := "pw", first_name := "A", last_name := "L",
          phone := "555" } = .error (.referenceError "bcrypt") ∧
      ∀ (s : Store) (now : Timestamp) (salt : String) (input : RegisterInput),
        register userModule s now salt input = .error (.referenceError "bcrypt") :=
  ⟨rfl, fun _ _ _ _ => rfl⟩

/-- C5: as `src/models/user.js` stands, registering Carol with password `pw`
raises a ReferenceError at `bcrypt.hash`, and authenticating Carol with `pw`
raises a ReferenceError at `db.query` even on the store that holds her row
with the digest of `pw`, where the specification has the first call store her and
the second answer true. -/
theorem register_authenticate_unbound :
    register userModule sampleStore 7 "salt"
        { username := "carol", password := "pw", first_name := "C", last_name := "L",
          phone := "555" } = .error (.referenceError "bcrypt") ∧
      register boundScope sampleStore 7 "salt"
        { username := "carol", password := "pw", first_name := "C", last_name := "L",
          phone := "555" } =
        .ok (some { username := "carol", password := "#pw", first_name := "C",
                    last_name := "L", phone := "555" }, carolStore) ∧
      authenticate userModule carolStore "carol" "pw" = .error (.referenceError "db") :=
  ⟨rfl, rfl, rfl⟩

/-- C6: as `src/models/user.js` stands `db` is not defined, so authenticating
the nonexistent username `mallory` raises a ReferenceError at `db.query`, where
the specification (and the doc comment `Returns boolean`) has it answer false
and never throw; the same holds for every store, username and password. -/
theorem authenticate_unbound_db :
    authenticate userModule sampleStore "mallory" "a" = .error (.referenceError "db") ∧
      ∀ (s : Store) (username password : String),
        authenticate userModule s username password = .error (.referenceError "db") :=
  ⟨rfl, fun _ _ _ => rfl⟩

/-- C10: as `src/models/user.js` stands `db` is not defined, so
`User.messagesFrom` for Alice and `User.messagesTo` for Bob raise a
ReferenceError at `db.query`, where the specification has them return the
message between the two; the same holds for every store and username. -/
theorem messages_unbound_db :
    messagesFrom userModule sampleStore "alice" = .error (.referenceError "db") ∧
      messagesTo userModule sampleStore "bob" = .error (.referenceError "db") ∧
      ∀ (s : Store) (username : String),
        messagesFrom userModule s username = .error (.referenceError "db") ∧
          messagesTo userModule s username = .error (.referenceError "db") :=
  ⟨rfl, rfl, fun _ _ => ⟨rfl, rfl⟩⟩

/-! ## Sending, reading and marking read -/

/-- C7, refuted as stated: a user may be stored under the empty username (a
valid store holds one, and the body of `User.register`, once its names are
bound, stores one), and a message sent to that user with a non-empty body is
answered 400 and not stored. -/
theorem send_to_blank_username_example :
    blankNameStore.Valid ∧
      register boundScope
          { users := [sampleUser "alice" "#a"], messages := [], nextId := 1 } 0 "salt"
          { username := "", password := "b", first_name := "F", last_name := "L",
            phone := "1" } =
        .ok (some { username := "", password := "#b", first_name := "F", last_name := "L",
                    phone := "1" }, blankNameStore) ∧
      "alice" ∈ blankNameStore.users.map (·.username) ∧
      "" ∈ blankNameStore.users.map (·.username) ∧
      send blankNameStore 4 "alice" (some "") (some "hi") =
        (.error 400 "Missing required fields", blankNameStore) :=
  ⟨by decide, rfl, by decide, by decide, by decide⟩

/-- C7, amended: in a valid store, for registered users `u1` and `u2` with
`u2` not the empty username and every non-empty body `b`, `POST /` by `u1` to
`u2` with body `b` answers 201 with the new id, and `GET /:id` of that id by
`u1` then answers 200 with a message whose body is `b`, whose `read_at` is
null and whose `to_user.username` is `u2`. -/
theorem send_then_getById (s : Store) (now : Timestamp) (u1 u2 b : String)
    (hv : s.Valid)
    (h1 : u1 ∈ s.users.map (·.username)) (h2 : u2 ∈ s.users.map (·.username))
    (hu2 : u2 ≠ "") (hb : b ≠ "") :
    ∃ s' d,
      send s now u1 (some u2) (some b) =
        (.json 201 (some { id := s.nextId, from_username := u1, to_username := u2,
                           body := b, sent_at := now }), s') ∧
      getById s' s.nextId u1 = .json 200 d ∧
      d.id = s.nextId ∧ d.body = b ∧ d.read_at = none ∧ d.sent_at = now ∧
      d.from_user.username = u1 ∧ d.to_user.username = u2 := by
  have hv' := hv.insert u1 u2 b now h1 h2
  have hmem : MessageRow.mk s.nextId u1 u2 b now none ∈
      s.messages ++ [MessageRow.mk s.nextId u1 u2 b now none] :=
    List.mem_append_right _ (List.mem_singleton_self _)
  obtain ⟨a, _, c, _, e1, e2, hq⟩ := detailQuery_head? hv' hmem
  simp only at e1 e2 hq
  refine ⟨_, MessageDetail.mk s.nextId b now none a.profile c.profile,
    send_ok s now u1 u2 b h1 h2 hu2 hb, ?_, rfl, rfl, rfl, rfl, e1, e2⟩
  simp only [getById, hq, e1, ne_eq, not_true_eq_false, false_and, if_false,
    UserRow.profile]

/-- C7, amended, at a concrete store: Alice sends Bob "hi". -/
theorem send_then_getById_witness :
    ∃ s' d,
      send sampleStore 7 "alice" (some "bob") (some "hi") =
        (.json 201 (some { id := sampleStore.nextId, from_username := "alice",
                           to_username := "bob", body := "hi", sent_at := 7 }), s') ∧
      getById s' sampleStore.nextId "alice" = .json 200 d ∧
      d.id = sampleStore.nextId ∧ d.body = "hi" ∧ d.read_at = none ∧ d.sent_at = 7 ∧
      d.from_user.username = "alice" ∧ d.to_user.username = "bob" :=
  send_then_getById sampleStore 7 "alice" "bob" "hi" (by decide) (by decide) (by decide)
    (by decide) (by decide)

/-- C8: in a valid store, for every stored message, `POST /:id/read` by its
recipient answers 200 with the id and a non-null `read_at` (the time of the
call), and `GET /:id` by its sender then answers 200 with that same `read_at`
and the id, body, `sent_at`, sender and recipient the message had before. -/
theorem markRead_then_getById (s : Store) (now : Timestamp) (m : MessageRow)
    (hv : s.Valid) (hm : m ∈ s.messages) :
    ∃ s', ∃ u1 ∈ s.users, ∃ u2 ∈ s.users,
      u1.username = m.from_username ∧ u2.username = m.to_username ∧
      getById s m.id m.from_username =
        .json 200 { id := m.id, body := m.body, sent_at := m.sent_at, read_at := m.read_at,
                    from_user := u1.profile, to_user := u2.profile } ∧
      markRead s now m.id m.to_username =
        (.json 200 (some { id := m.id, read_at := some now }), s') ∧
      getById s' m.id m.from_username =
        .json 200 { id := m.id, body := m.body, sent_at := m.sent_at, read_at := some now,
                    from_user := u1.profile, to_user := u2.profile } := by
  obtain ⟨u1, hu1, u2, hu2, e1, e2, hq⟩ := detailQuery_head? hv hm
  have hv' := hv.update now m.id
  have hm' : ({ m with read_at := some now } : MessageRow) ∈
      (updateReadAt s now m.id).2.messages :=
    List.mem_map.mpr ⟨m, hm, by simp⟩
  obtain ⟨a, ha, c, hc, f1, f2, hq'⟩ := detailQuery_head? hv' hm'
  simp only at f1 f2 hq'
  have hau : a = u1 := hv.user_unique ha hu1 (by rw [f1, e1])
  have hcu : c = u2 := hv.user_unique hc hu2 (by rw [f2, e2])
  subst hau
  subst hcu
  refine ⟨(updateReadAt s now m.id).2, a, hu1, c, hu2, e1, e2, ?_, ?_, ?_⟩
  · simp only [getById, hq, e1, ne_eq, not_true_eq_false, false_and, if_false,
      UserRow.profile]
  · simp only [markRead, recipientQuery_head? hv hm, ne_eq, not_true_eq_false, if_false,
      updateReadAt_head? hm]
  · simp only [getById, hq', e1, ne_eq, not_true_eq_false, false_and, if_false,
      UserRow.profile]

/-- C8, at a concrete store: Bob marks Alice's message read at time 5. -/
theorem markRead_then_getById_witness :
    sampleStore.Valid ∧
      ∃ s', ∃ u1 ∈ sampleStore.users, ∃ u2 ∈ sampleStore.users,
        u1.username = "alice" ∧ u2.username = "bob" ∧
        getById sampleStore 1 "alice" =
          .json 200 { id := 1, body := "hello", sent_at := 3, read_at := none,
                      from_user := u1.profile, to_user := u2.profile } ∧
        markRead sampleStore 5 1 "bob" = (.json 200 (some { id := 1, read_at := some 5 }), s') ∧
        getById s' 1 "alice" =
          .json 200 { id := 1, body := "hello", sent_at := 3, read_at := some 5,
                      from_user := u1.profile, to_user := u2.profile } :=
  ⟨by decide,
    markRead_then_getById sampleStore 5
      { id := 1, from_username := "alice", to_username := "bob", body := "hello",
        sent_at := 3, read_at := none } (by decide) (by decide)⟩

/-- C9, refuted as stated: after Bob marks message 1 read at time 5 its
`read_at` is 5, and a second mark-read by Bob at time 9 changes it to 9. -/
theorem markRead_twice_example :
    sampleStore.Valid ∧
      (run sampleStore [.markRead 5 1 "bob"]).messages.map (·.read_at) = [some 5] ∧
      (run sampleStore [.markRead 5 1 "bob", .markRead 9 1 "bob"]).messages.map
          (·.read_at) = [some 9] :=
  ⟨by decide, by decide, by decide⟩

/-- C9, amended: over every sequence of send, get and mark-read requests on a
valid store, each stored message keeps its id, parties, body and `sent_at`; a
non-null `read_at` never becomes null; `read_at` differs from its initial
value only if the sequence contains a mark-read of that id by the message's
recipient, in which case it is the time of such a request; and a further
mark-read by the recipient sets `read_at` to the time of that request,
whatever it was before. -/
theorem read_at_history (s : Store) (ops : List Op) (m : MessageRow) (later : Timestamp)
    (hv : s.Valid) (hm : m ∈ s.messages) :
    (∃ m' ∈ (run s ops).messages,
      m'.id = m.id ∧ m'.from_username = m.from_username ∧
      m'.to_username = m.to_username ∧ m'.body = m.body ∧ m'.sent_at = m.sent_at ∧
      (m.read_at ≠ none → m'.read_at ≠ none) ∧
      (m'.read_at ≠ m.read_at →
        ∃ now, Op.markRead now m.id m.to_username ∈ ops ∧ m'.read_at = some now)) ∧
    (∃ m' ∈ (run s (ops ++ [.markRead later m.id m.to_username])).messages,
      m'.id = m.id ∧ m'.read_at = some later) := by
  refine ⟨run_message hv ops hm, ?_⟩
  obtain ⟨m1, hm1, a1, _, a3, _, _, _, _⟩ := run_message hv ops hm
  have hstore : run s (ops ++ [.markRead later m.id m.to_username]) =
      (markRead (run s ops) later m1.id m1.to_username).2 := by
    simp only [run, List.foldl_append, List.foldl_cons, List.foldl_nil, step, a1, a3]
  rw [hstore, markRead_recipient (hv.run ops) later hm1]
  refine ⟨{ m1 with read_at := some later }, ?_, a1, rfl⟩
  exact List.mem_map.mpr ⟨m1, hm1, by simp⟩

/-- C9, amended, at a concrete store and sequence: Alice's attempt to mark the
message read, then Bob's at time 5. -/
theorem read_at_history_witness :
    sampleStore.Valid ∧
      (∃ m' ∈ (run sampleStore [.markRead 4 1 "alice", .markRead 5 1 "bob"]).messages,
        m'.id = 1 ∧ m'.from_username = "alice" ∧ m'.to_username = "bob" ∧
        m'.body = "hello" ∧ m'.sent_at = 3 ∧
        ((none : Option Timestamp) ≠ none → m'.read_at ≠ none) ∧
        (m'.read_at ≠ none →
          ∃ now, Op.markRead now 1 "bob" ∈
              [Op.markRead 4 1 "alice", Op.markRead 5 1 "bob"] ∧
            m'.read_at = some now)) ∧
      (∃ m' ∈ (run sampleStore
            ([.markRead 4 1 "alice", .markRead 5 1 "bob"] ++ [.markRead 9 1 "bob"])).messages,
        m'.id = 1 ∧ m'.read_at = some 9) :=
  ⟨by decide,
    read_at_history sampleStore [.markRead 4 1 "alice", .markRead 5 1 "bob"]
      { id := 1, from_username := "alice", to_username := "bob", body := "hello",
        sent_at := 3, read_at := none } 9 (by decide) (by decide)⟩

end Messagely
